import Mathlib

/-!
Shallow embedding of the pixel-format marshaling and multi-resolution
geometry pipeline of the openjphjs wrappers (`src/src/HTJ2KDecoder.hpp`,
`src/src/HTJ2KEncoder.hpp`, `src/src/OpenJPHDecoder.hpp`,
`src/src/FrameInfo.hpp`, `src/src/Size.hpp`, `src/src/Point.hpp`).

Byte buffers (`std::vector<uint8_t>`) are `List Nat` holding byte values;
engine-supplied 32-bit samples are `Int`; the external OpenJPH engine
itself is not part of the repository sources, so where a claim depends on
it the engine is modelled from the spec (each such definition is marked).
-/

namespace Openjphjs

/-- `FrameInfo` (FrameInfo.hpp): per-image sample format.  The C++ fields are
`uint16_t width, height`, `uint8_t bitsPerSample, componentCount` and two
bools; the documented ranges are width/height in [1,65535], bitsPerSample in
[2,16], componentCount in [1,255]. -/
structure FrameInfo where
  width : Nat
  height : Nat
  bitsPerSample : Nat
  componentCount : Nat
  isSigned : Bool
  isUsingColorTransform : Bool
deriving DecidableEq, Repr

/-- `Size` (Size.hpp): a pair of `uint32_t`. -/
structure Size where
  width : Nat
  height : Nat
deriving DecidableEq, Repr

/-- `Point` (Point.hpp): a pair of `uint32_t`. -/
structure Point where
  x : Nat
  y : Nat
deriving DecidableEq, Repr

/-- Modelled from the spec: the engine helper `ojph_div_ceil` lives in the
external engine headers (not under `src/`); the spec describes the size
computation as `dim = ceil(dim / 2)`, i.e. ceiling division. -/
def ojph_div_ceil (x y : Nat) : Nat := (x + y - 1) / y

/-- Iteration count of the `while (decompositionLevel > 0)` loop of
`HTJ2KDecoder::calculateSizeAtDecompositionLevel` (HTJ2KDecoder.hpp lines
100-105): the loop body halves both dimensions and decrements the (signed
`int`) level, so it runs exactly `max level 0` times. -/
def calcSizeGo (result : Size) : Nat → Size
  | 0 => result
  | n + 1 => calcSizeGo ⟨ojph_div_ceil result.width 2, ojph_div_ceil result.height 2⟩ n

/-- The loop of `calculateSizeAtDecompositionLevel` on its signed `int`
argument: a negative or zero level runs the body zero times. -/
def calcSizeLoop (result : Size) (decompositionLevel : Int) : Size :=
  calcSizeGo result decompositionLevel.toNat

/-- Decoder instance state (the private members of `HTJ2KDecoder`).
Members not used by any modelled method are omitted. -/
structure HTJ2KDecoder where
  encoded_ : List Nat
  decoded_ : List Nat
  frameInfo_ : FrameInfo
  numDecompositions_ : Nat
  isReversible_ : Bool
  progressionOrder_ : Nat
  precincts_ : List Size
  isUsingColorTransform_ : Bool
deriving DecidableEq, Repr

/-- The state constructed by `HTJ2KDecoder()` : default-initialised
`FrameInfo` (all fields zero per its member initialisers) and empty buffers. -/
def HTJ2KDecoder.init : HTJ2KDecoder :=
  ⟨[], [], ⟨0, 0, 0, 0, false, false⟩, 0, false, 0, [], false⟩

/-- `HTJ2KDecoder::calculateSizeAtDecompositionLevel` (HTJ2KDecoder.hpp lines
97-107).  The C++ method mutates nothing; the state is returned unchanged to
make that observable. -/
def HTJ2KDecoder.calculateSizeAtDecompositionLevel (self : HTJ2KDecoder)
    (decompositionLevel : Int) : Size × HTJ2KDecoder :=
  (calcSizeLoop ⟨self.frameInfo_.width, self.frameInfo_.height⟩ decompositionLevel, self)

/-- Byte fetch from a buffer; out-of-range reads yield 0 (standing in for the
unspecified bytes the C++ code would read past the end of the vector). -/
def byteAt (buf : List Nat) (i : Nat) : Nat := buf.getD i 0

/-- Read a little-endian `uint16_t` at a byte offset, widened to `Int`
(the WASM/x86 targets are little-endian). -/
def readU16 (buf : List Nat) (off : Nat) : Int :=
  (byteAt buf off : Int) + 256 * (byteAt buf (off + 1) : Int)

/-- Read a little-endian two's-complement `int16_t` at a byte offset,
widened to `Int`. -/
def readS16 (buf : List Nat) (off : Nat) : Int :=
  let u := (byteAt buf off : Int) + 256 * (byteAt buf (off + 1) : Int)
  if 32768 ≤ u then u - 65536 else u

/-- `std::max(0, std::min(val, UCHAR_MAX))` (HTJ2KDecoder.hpp line 332). -/
def clampU8 (v : Int) : Int := max 0 (min v 255)

/-- `std::max(SHRT_MIN, std::min(val, SHRT_MAX))` (HTJ2KDecoder.hpp line 343). -/
def clampS16 (v : Int) : Int := max (-32768) (min v 32767)

/-- `std::max(0, std::min(val, USHRT_MAX))` (HTJ2KDecoder.hpp line 352). -/
def clampU16 (v : Int) : Int := max 0 (min v 65535)

/-- Little-endian byte pair storing an `Int` as a `uint16_t`/`int16_t`
bit pattern (two's complement reduction modulo 2^16). -/
def u16bytes (v : Int) : Nat × Nat :=
  let u := (v % 65536).toNat
  (u % 256, u / 256)

/-- Inner 8-bit store loop of `HTJ2KDecoder::decode_` (lines 329-333 and
365-369): for each x, `pOut[x * C] = clampU8(line[x])` where
`pOut = &decoded_[lineStart] + c`.  The single-component branch is the
`c = 0`, `C = 1` instance of the same loop. -/
def storeLine8 (C lineStart c w : Nat) (line : Nat → Int) (buf : List Nat) : List Nat :=
  (List.range w).foldl
    (fun b x => b.set (lineStart + c + x * C) (clampU8 (line x)).toNat) buf

/-- Inner 16-bit store loop of `HTJ2KDecoder::decode_` (lines 337-354 and
374-391): for each x the clamped sample is stored as a two-byte
`int16_t`/`uint16_t` at `(short*)&decoded_[lineStart] + c`, index `x * C`. -/
def storeLine16 (C lineStart c w : Nat) (signed : Bool) (line : Nat → Int)
    (buf : List Nat) : List Nat :=
  (List.range w).foldl
    (fun b x =>
      let v := if signed then clampS16 (line x) else clampU16 (line x)
      let off := lineStart + 2 * c + 2 * (x * C)
      ((b.set off (u16bytes v).1).set (off + 1) (u16bytes v).2)) buf

/-- One iteration of the scanline loop of `HTJ2KDecoder::decode_` (lines
320-395): for scanline `y`, pull one line per component and store it at
`lineStart = y * width * componentCount * bytesPerPixel`.  `pull y c x` is
the engine-supplied `line->i32[x]` for the line pulled at position (y, c).
The `componentCount == 1` special case of the source coincides with the
general loop at `C = 1`. -/
def decodeRow (fi : FrameInfo) (W : Nat) (pull : Nat → Nat → Nat → Int)
    (y : Nat) (buf : List Nat) : List Nat :=
  let bytesPerPixel := (fi.bitsPerSample + 8 - 1) / 8
  let lineStart := y * W * fi.componentCount * bytesPerPixel
  (List.range fi.componentCount).foldl
    (fun b c =>
      if fi.bitsPerSample ≤ 8 then storeLine8 fi.componentCount lineStart c W (pull y c) b
      else storeLine16 fi.componentCount lineStart c W fi.isSigned (pull y c) b) buf

/-- `HTJ2KDecoder::decode_` (HTJ2KDecoder.hpp lines 282-396): compute the
level size, allocate `width * height * componentCount * bytesPerPixel`
bytes (`bytesPerPixel = (bitsPerSample + 8 - 1) / 8`), then fill the buffer
scanline by scanline from the engine's pulled lines.  The engine calls
(`restrict_input_resolution`, `set_planar`, `create`, `pull`) are modelled
by the `pull` argument; `resolutionLevel` (line 288) is computed by the
source but never used. -/
def HTJ2KDecoder.decode_ (fi : FrameInfo) (pull : Nat → Nat → Nat → Int)
    (decompositionLevel : Nat) : List Nat :=
  let sz := calcSizeLoop ⟨fi.width, fi.height⟩ (decompositionLevel : Int)
  let bytesPerPixel := (fi.bitsPerSample + 8 - 1) / 8
  let destinationSize := sz.width * sz.height * fi.componentCount * bytesPerPixel
  (List.range sz.height).foldl (fun b y => decodeRow fi sz.width pull y b)
    (List.replicate destinationSize 0)

/-- The header fields `HTJ2KDecoder::readHeader_` (lines 240-280) extracts
from the engine's parse of the codestream.  The engine's parser is not under
`src/`; its result is taken as given. -/
structure HeaderInfo where
  width : Nat
  height : Nat
  componentCount : Nat
  bitsPerSample : Nat
  isSigned : Bool
  numDecompositions : Nat
  isReversible : Bool
  progressionOrder : Nat
  precincts : List Size
  isUsingColorTransform : Bool
deriving DecidableEq, Repr

/-- `HTJ2KDecoder::readHeader_`: populate the decoder members from the
parsed header. -/
def HTJ2KDecoder.readHeader_ (self : HTJ2KDecoder) (hdr : HeaderInfo) : HTJ2KDecoder :=
  { self with
    frameInfo_ :=
      { width := hdr.width, height := hdr.height,
        componentCount := hdr.componentCount, bitsPerSample := hdr.bitsPerSample,
        isSigned := hdr.isSigned, isUsingColorTransform := hdr.isUsingColorTransform }
    numDecompositions_ := hdr.numDecompositions
    isReversible_ := hdr.isReversible
    progressionOrder_ := hdr.progressionOrder
    precincts_ := hdr.precincts
    isUsingColorTransform_ := hdr.isUsingColorTransform }

/-- `HTJ2KDecoder::decodeSubResolution` (lines 129-136): read the header,
then run `decode_` with the requested decomposition level.  The source
contains no validation of the level whatsoever. -/
def HTJ2KDecoder.decodeSubResolution (self : HTJ2KDecoder) (hdr : HeaderInfo)
    (pull : Nat → Nat → Nat → Int) (decompositionLevel : Nat) : HTJ2KDecoder :=
  let s := self.readHeader_ hdr
  { s with decoded_ := HTJ2KDecoder.decode_ s.frameInfo_ pull decompositionLevel }

/-- Encoder instance state (the private members of `HTJ2KEncoder`).  The
`float quantizationStep_` member is omitted (floating point, unused by the
modelled behaviour). -/
structure HTJ2KEncoder where
  decoded_ : List Nat
  frameInfo_ : FrameInfo
  decompositions_ : Nat
  lossless_ : Bool
  progressionOrder_ : Nat
  blockDimensions_ : Size
  precincts_ : List Size
  downSamples_ : List Point
  imageOffset_ : Point
  tileSize_ : Size
  tileOffset_ : Point
deriving DecidableEq, Repr

/-- The default member initialisers of `HTJ2KEncoder` (lines 312-329):
`decompositions_ = 5`, `lossless_ = true`, `progressionOrder_ = 2`,
`blockDimensions_ = Size(64,64)`, empty precinct list. -/
def HTJ2KEncoder.init : HTJ2KEncoder :=
  ⟨[], ⟨0, 0, 0, 0, false, false⟩, 5, true, 2, ⟨64, 64⟩, [], [], ⟨0, 0⟩, ⟨0, 0⟩, ⟨0, 0⟩⟩

/-- `std::vector::resize` on a vector of `Size`: truncate or pad with
value-initialised elements `Size()` = (0,0). -/
def vectorResize (l : List Size) (n : Nat) : List Size :=
  l.take n ++ List.replicate (n - l.length) ⟨0, 0⟩

/-- `HTJ2KEncoder::setDecompositions` (lines 101-105):
`decompositions_ = decompositions; precincts_.resize(0);`. -/
def HTJ2KEncoder.setDecompositions (self : HTJ2KEncoder) (decompositions : Nat) :
    HTJ2KEncoder :=
  { self with decompositions_ := decompositions, precincts_ := [] }

/-- `HTJ2KEncoder::setNumPrecincts` (lines 177-180):
`precincts_.resize(numLevels);` — no validation of any kind. -/
def HTJ2KEncoder.setNumPrecincts (self : HTJ2KEncoder) (numLevels : Nat) :
    HTJ2KEncoder :=
  { self with precincts_ := vectorResize self.precincts_ numLevels }

/-- `HTJ2KEncoder::setPrecinct` (lines 186-189). -/
def HTJ2KEncoder.setPrecinct (self : HTJ2KEncoder) (level : Nat) (precinct : Size) :
    HTJ2KEncoder :=
  { self with precincts_ := self.precincts_.set level precinct }

/-- The coding-parameter configuration `HTJ2KEncoder::encode` hands to the
engine (lines 239-261): in particular `cod.set_precinct_size(precincts_.size(),
precincts.data())` passes the precinct list and its length through unchecked. -/
structure CodParams where
  num_decomposition : Nat
  block_width : Nat
  block_height : Nat
  precinct_count : Nat
  precinct_sizes : List Size
  progression_order : Nat
  color_transform : Bool
  reversible : Bool
deriving DecidableEq, Repr

/-- The engine configuration built by the first half of `HTJ2KEncoder::encode`. -/
def HTJ2KEncoder.encodeConfig (self : HTJ2KEncoder) : CodParams :=
  { num_decomposition := self.decompositions_
    block_width := self.blockDimensions_.width
    block_height := self.blockDimensions_.height
    precinct_count := self.precincts_.length
    precinct_sizes := self.precincts_
    progression_order := self.progressionOrder_
    color_transform := self.frameInfo_.isUsingColorTransform
    reversible := self.lossless_ }

/-- The int32 sample `HTJ2KEncoder::encode` hands to the engine for scanline
`y`, component `c`, pixel `x` (lines 265-302).  Faithful to the source:
`bytesPerPixel = frameInfo_.bitsPerSample / 8` (integer division, line 265);
the `bitsPerSample <= 8` branch reads `uint8_t` at
`y * width * bytesPerPixel * componentCount + c + x * componentCount`
(lines 277-282); the 16-bit branches read an `int16_t`/`uint16_t` at byte
offset `y * width * bytesPerPixel + 2 * x` (lines 288-301), with no
component index or component stride. -/
def HTJ2KEncoder.sampleAt (fi : FrameInfo) (src : List Nat) (y c x : Nat) : Int :=
  let bytesPerPixel := fi.bitsPerSample / 8
  if fi.bitsPerSample ≤ 8 then
    (byteAt src (y * fi.width * bytesPerPixel * fi.componentCount + c
      + x * fi.componentCount) : Int)
  else if fi.isSigned then readS16 src (y * fi.width * bytesPerPixel + 2 * x)
  else readU16 src (y * fi.width * bytesPerPixel + 2 * x)

/-- Modelled from the spec (section 4.4): the sample the encode marshaler is
specified to hand to the engine — unpack the `bytesPerPixel`-sized sample at
byte offset `y * width * componentCount * bytesPerPixel +
(x * componentCount + c) * bytesPerPixel`, `bytesPerPixel =
ceil(bitsPerSample / 8)`, widening to int32. -/
def specSampleAt (fi : FrameInfo) (src : List Nat) (y c x : Nat) : Int :=
  let bytesPerPixel := (fi.bitsPerSample + 7) / 8
  let off := y * fi.width * fi.componentCount * bytesPerPixel
    + (x * fi.componentCount + c) * bytesPerPixel
  if bytesPerPixel = 1 then (byteAt src off : Int)
  else if fi.isSigned then readS16 src off
  else readU16 src off

/-- The full sequence of sample lines `HTJ2KEncoder::encode` hands to the
engine's `exchange` interface, in pull order: for each scanline `y`, for each
component `c`, the line of `width` samples. -/
def HTJ2KEncoder.encodeLines (fi : FrameInfo) (src : List Nat) :
    List (List (List Int)) :=
  (List.range fi.height).map fun y =>
    (List.range fi.componentCount).map fun c =>
      (List.range fi.width).map fun x => HTJ2KEncoder.sampleAt fi src y c x

/-- `HTJ2KEncoder::encode` (lines 221-310), observed at the engine boundary:
it unconditionally builds the coding configuration and hands every sample
line to the engine; the source contains no check of `decoded_`'s length
against the size implied by `frameInfo_`. -/
def HTJ2KEncoder.encode (self : HTJ2KEncoder) :
    CodParams × List (List (List Int)) :=
  (self.encodeConfig, HTJ2KEncoder.encodeLines self.frameInfo_ self.decoded_)

/-- Modelled from the spec: with `lossless=true` the external engine is
reversible — the lines pulled during decode are exactly the lines the
encoder handed to `exchange`, in the same (y, c) order. -/
def losslessEnginePull (lines : List (List (List Int))) (y c x : Nat) : Int :=
  (((lines.getD y []).getD c []).getD x 0)

/-- Lossless encode-then-decode-at-level-0 round trip of a packed source
buffer, with the engine modelled from the spec as perfectly reversible. -/
def roundTrip (fi : FrameInfo) (src : List Nat) : List Nat :=
  HTJ2KDecoder.decode_ fi (losslessEnginePull (HTJ2KEncoder.encodeLines fi src)) 0

/-- Per-sample store of `OpenJPHDecoder::decode` (OpenJPHDecoder.hpp line 98):
`pOut[x * componentCount] = val;` with `uint8_t* pOut` — the C++ assignment
converts the int to `uint8_t` by reduction modulo 256; no clamping. -/
def OpenJPHDecoder.storeSample8 (val : Int) : Nat := (val % 256).toNat

/-- Inner 8-bit store loop of `OpenJPHDecoder::decode` (lines 95-99),
the unclamped counterpart of `storeLine8`. -/
def OpenJPHDecoder.storeLine8 (C lineStart c w : Nat) (line : Nat → Int)
    (buf : List Nat) : List Nat :=
  (List.range w).foldl
    (fun b x => b.set (lineStart + c + x * C) (OpenJPHDecoder.storeSample8 (line x))) buf

/-- Modelled from the spec (section 4.1): the specified resolution
calculation — apply `dim = ceil(dim / 2)` to each dimension exactly L times. -/
def specLevelSize (w h L : Nat) : Size :=
  ⟨(fun d => (d + 1) / 2)^[L] w, (fun d => (d + 1) / 2)^[L] h⟩

/-- Read back the packed sample at (y, c, x) from a decoded buffer laid out
as `HTJ2KDecoder::decode_` writes it (level width `W`). -/
def decodedSampleAt (fi : FrameInfo) (buf : List Nat) (W y c x : Nat) : Int :=
  let bytesPerPixel := (fi.bitsPerSample + 8 - 1) / 8
  let lineStart := y * W * fi.componentCount * bytesPerPixel
  if fi.bitsPerSample ≤ 8 then
    (byteAt buf (lineStart + c + x * fi.componentCount) : Int)
  else if fi.isSigned then readS16 buf (lineStart + 2 * c + 2 * (x * fi.componentCount))
  else readU16 buf (lineStart + 2 * c + 2 * (x * fi.componentCount))

/-- A decoder whose header fields describe the 512x512 one-component image of
the spec scenario. -/
def decoder512 : HTJ2KDecoder :=
  { HTJ2KDecoder.init with
    frameInfo_ := ⟨512, 512, 16, 1, true, false⟩
    numDecompositions_ := 5 }

/-- FrameInfo of the C1/C2 failing input: 1x1, 16-bit unsigned, two
components. -/
def fi16x2 : FrameInfo := ⟨1, 1, 16, 2, false, false⟩

/-- FrameInfo of the second C2 failing input: 2x2, 4-bit unsigned, one
component. -/
def fi4x1 : FrameInfo := ⟨2, 2, 4, 1, false, false⟩

/-- Header with numDecompositions = 5 for a 4x4 8-bit single-component
image (C3 scenario). -/
def hdr44 : HeaderInfo := ⟨4, 4, 1, 8, false, 5, true, 2, [], false⟩

/-- Encoder state whose caller-supplied source buffer is one byte short of
the size implied by its FrameInfo (2x2, 8-bit, one component: 4 bytes). -/
def encShort : HTJ2KEncoder :=
  { HTJ2KEncoder.init with
    frameInfo_ := ⟨2, 2, 8, 1, false, false⟩
    decoded_ := [1, 2, 3] }

/-- Frame and engine line used to witness the decode clamping claims:
2x1, 8-bit unsigned, one component; the engine supplies -10 and 290,
both outside [0, 255]. -/
def fiClamp : FrameInfo := ⟨2, 1, 8, 1, false, false⟩

/-- Engine pull function supplying out-of-range samples. -/
def pullClamp : Nat → Nat → Nat → Int := fun _ _ x => 300 * (x : Int) - 10

/-- Engine pull function supplying the constant sample 0. -/
def pull0 : Nat → Nat → Nat → Int := fun _ _ _ => 0

/-- Engine pull function supplying the constant sample 128. -/
def pull128 : Nat → Nat → Nat → Int := fun _ _ _ => 128

end Openjphjs

namespace Openjphjs

/-! ### General lemmas about the embedded loops -/

theorem foldl_length_inv {α : Type} (f : List Nat → α → List Nat)
    (hf : ∀ b a, (f b a).length = b.length) :
    ∀ (l : List α) (b : List Nat), (l.foldl f b).length = b.length
  | [], _ => rfl
  | a :: t, b => by
    rw [List.foldl_cons, foldl_length_inv f hf t, hf]

theorem foldl_get_preserve {α : Type} (f : List Nat → α → List Nat) (i : Nat) :
    ∀ (l : List α) (b : List Nat),
      (∀ b2 a, a ∈ l → (f b2 a)[i]? = b2[i]?) → (l.foldl f b)[i]? = b[i]?
  | [], _, _ => rfl
  | a :: t, b, h => by
    rw [List.foldl_cons,
      foldl_get_preserve f i t _ (fun b2 a2 ha => h b2 a2 (List.mem_cons_of_mem _ ha)),
      h b a (List.mem_cons_self _ _)]

theorem foldl_get_hit {α : Type} [DecidableEq α] (f : List Nat → α → List Nat)
    (i : Nat) (x0 : α) (val : Nat) (n : Nat)
    (hlen : ∀ b a, (f b a).length = b.length)
    (hset : ∀ b : List Nat, b.length = n → (f b x0)[i]? = some val) :
    ∀ (l : List α) (b : List Nat), b.length = n → x0 ∈ l → l.Nodup →
      (∀ b2 a, a ∈ l → a ≠ x0 → (f b2 a)[i]? = b2[i]?) →
      (l.foldl f b)[i]? = some val
  | [], _, _, hmem, _, _ => absurd hmem (List.not_mem_nil x0)
  | a :: t, b, hb, hmem, hnodup, hskip => by
    rw [List.foldl_cons]
    by_cases hax : a = x0
    · subst hax
      have hnotin : a ∉ t := (List.nodup_cons.mp hnodup).1
      rw [foldl_get_preserve f i t _ (fun b2 a2 ha2 =>
        hskip b2 a2 (List.mem_cons_of_mem _ ha2) (fun he => hnotin (he ▸ ha2)))]
      exact hset b hb
    · have hmem2 : x0 ∈ t := by
        rcases List.mem_cons.mp hmem with h | h
        · exact absurd h.symm hax
        · exact h
      exact foldl_get_hit f i x0 val n hlen hset t (f b a)
        (by rw [hlen, hb]) hmem2 (List.nodup_cons.mp hnodup).2
        (fun b2 a2 ha2 => hskip b2 a2 (List.mem_cons_of_mem _ ha2))

/-- Positional index injectivity of the interleaved layout: within one
scanline, component `c`, pixel `x` writes to `c + x * C`. -/
theorem interleave_inj {c c2 x x2 C : Nat} (hc : c < C) (hc2 : c2 < C)
    (h : c2 + x2 * C = c + x * C) : c2 = c ∧ x2 = x := by
  have h1 : (c2 + x2 * C) % C = (c + x * C) % C := by rw [h]
  rw [Nat.add_mul_mod_self_right, Nat.add_mul_mod_self_right,
    Nat.mod_eq_of_lt hc2, Nat.mod_eq_of_lt hc] at h1
  subst h1
  refine ⟨rfl, ?_⟩
  have h2 : x2 * C = x * C := by omega
  exact Nat.eq_of_mul_eq_mul_right (by omega) h2

/-- Within a scanline the interleaved offset stays below `W * C`. -/
theorem interleave_lt {c x W C : Nat} (hc : c < C) (hx : x < W) :
    c + x * C < W * C := by
  have h1 : c + x * C < (x + 1) * C := by
    have : (x + 1) * C = x * C + C := by ring
    omega
  have h2 : (x + 1) * C ≤ W * C := Nat.mul_le_mul (by omega) le_rfl
  omega

/-- Distinct scanline blocks of size `WC` are disjoint. -/
theorem row_disjoint {y y2 r r2 WC : Nat} (hr : r < WC) (hr2 : r2 < WC)
    (hne : y2 ≠ y) : y2 * WC + r2 ≠ y * WC + r := by
  have key : ∀ a b s s2 : Nat, a < b → s < WC → s2 < WC →
      a * WC + s < b * WC + s2 := by
    intro a b s s2 hab hs hs2
    have h1 : a * WC + s < (a + 1) * WC := by
      have : (a + 1) * WC = a * WC + WC := by ring
      omega
    have h2 : (a + 1) * WC ≤ b * WC := Nat.mul_le_mul (by omega) le_rfl
    omega
  rcases Nat.lt_or_ge y2 y with hlt | hge
  · exact Nat.ne_of_lt (key y2 y r2 r hlt hr2 hr)
  · have hgt : y < y2 := Nat.lt_of_le_of_ne hge (Ne.symm hne)
    exact (Nat.ne_of_lt (key y y2 r r2 hgt hr hr2)).symm

/-! ### Lemmas about `calcSizeLoop` -/

/-- The recursion computes the spec's iterated ceiling halving. -/
theorem calcSizeGo_eq : ∀ (L w h : Nat), calcSizeGo ⟨w, h⟩ L = specLevelSize w h L
  | 0, _, _ => rfl
  | L + 1, w, h => by
    show calcSizeGo ⟨ojph_div_ceil w 2, ojph_div_ceil h 2⟩ L = _
    rw [calcSizeGo_eq L]
    simp only [specLevelSize, ojph_div_ceil, Function.iterate_succ_apply]
    rfl

theorem calcSizeLoop_natCast (w h L : Nat) :
    calcSizeLoop ⟨w, h⟩ (L : Int) = specLevelSize w h L := by
  rw [calcSizeLoop, Int.toNat_natCast, calcSizeGo_eq]

theorem calcSizeLoop_nonpos {L : Int} (s : Size) (hL : L ≤ 0) :
    calcSizeLoop s L = s := by
  have h0 : L.toNat = 0 := Int.toNat_of_nonpos hL
  rw [calcSizeLoop, h0]
  rfl

/-- The `while (decompositionLevel > 0)` loop, one unrolling: the embedding
agrees with the source's loop structure. -/
theorem calcSizeLoop_pos {L : Int} (s : Size) (hL : 0 < L) :
    calcSizeLoop s L
      = calcSizeLoop ⟨ojph_div_ceil s.width 2, ojph_div_ceil s.height 2⟩ (L - 1) := by
  have h1 : L.toNat = (L - 1).toNat + 1 := by omega
  rw [calcSizeLoop, h1]
  rfl

/-! ### Lemmas about the decode store loops -/

theorem storeLine8_length (C lineStart c w : Nat) (line : Nat → Int) (buf : List Nat) :
    (storeLine8 C lineStart c w line buf).length = buf.length :=
  foldl_length_inv _ (fun b _ => List.length_set b _ _) _ _

theorem storeLine16_length (C lineStart c w : Nat) (signed : Bool) (line : Nat → Int)
    (buf : List Nat) :
    (storeLine16 C lineStart c w signed line buf).length = buf.length :=
  foldl_length_inv _ (fun b _ => by
    simp only [List.length_set]) _ _

theorem storeLine8_get_preserve {C lineStart c w i : Nat} {line : Nat → Int}
    {buf : List Nat} (h : ∀ x, x < w → lineStart + c + x * C ≠ i) :
    (storeLine8 C lineStart c w line buf)[i]? = buf[i]? :=
  foldl_get_preserve _ i _ _ (fun _ x hx =>
    List.getElem?_set_ne (h x (List.mem_range.mp hx)))

theorem storeLine16_get_preserve {C lineStart c w i : Nat} {signed : Bool}
    {line : Nat → Int} {buf : List Nat}
    (h : ∀ x, x < w → lineStart + 2 * c + 2 * (x * C) ≠ i
      ∧ lineStart + 2 * c + 2 * (x * C) + 1 ≠ i) :
    (storeLine16 C lineStart c w signed line buf)[i]? = buf[i]? :=
  foldl_get_preserve _ i _ _ (fun b2 x hx => by
    have hx2 := h x (List.mem_range.mp hx)
    rw [List.getElem?_set_ne hx2.2, List.getElem?_set_ne hx2.1])

theorem storeLine8_get_hit {C lineStart c w x0 : Nat} {line : Nat → Int}
    {buf : List Nat} (hx : x0 < w) (hC : 0 < C)
    (hlt : lineStart + c + x0 * C < buf.length) :
    (storeLine8 C lineStart c w line buf)[lineStart + c + x0 * C]?
      = some (clampU8 (line x0)).toNat := by
  refine foldl_get_hit
    (fun b x => b.set (lineStart + c + x * C) (clampU8 (line x)).toNat)
    (lineStart + c + x0 * C) x0 (clampU8 (line x0)).toNat buf.length
    (fun b x => List.length_set b _ _)
    (fun b hb => List.getElem?_set_self (by omega))
    (List.range w) buf rfl
    (List.mem_range.mpr hx) (List.nodup_range w) (fun b2 x hxm hne => ?_)
  refine List.getElem?_set_ne (fun he => hne ?_)
  have h2 : x * C = x0 * C := by omega
  exact Nat.eq_of_mul_eq_mul_right hC h2

theorem storeLine16_get_hit_lo {C lineStart c w x0 : Nat} {signed : Bool}
    {line : Nat → Int} {buf : List Nat} (hx : x0 < w) (hC : 0 < C)
    (hlt : lineStart + 2 * c + 2 * (x0 * C) < buf.length) :
    (storeLine16 C lineStart c w signed line buf)[lineStart + 2 * c + 2 * (x0 * C)]?
      = some (u16bytes (if signed then clampS16 (line x0) else clampU16 (line x0))).1 := by
  refine foldl_get_hit
    (fun b x =>
      (b.set (lineStart + 2 * c + 2 * (x * C))
        (u16bytes (if signed then clampS16 (line x) else clampU16 (line x))).1).set
        (lineStart + 2 * c + 2 * (x * C) + 1)
        (u16bytes (if signed then clampS16 (line x) else clampU16 (line x))).2)
    (lineStart + 2 * c + 2 * (x0 * C)) x0
    (u16bytes (if signed then clampS16 (line x0) else clampU16 (line x0))).1 buf.length
    (fun b x => by simp only [List.length_set])
    (fun b hb => ?_) (List.range w) buf rfl
    (List.mem_range.mpr hx) (List.nodup_range w) (fun b2 x hxm hne => ?_)
  · rw [List.getElem?_set_ne (by omega), List.getElem?_set_self (by omega)]
  · have hxne : x * C ≠ x0 * C := fun he =>
      hne (Nat.eq_of_mul_eq_mul_right hC he)
    rw [List.getElem?_set_ne (by omega), List.getElem?_set_ne (by omega)]

theorem storeLine16_get_hit_hi {C lineStart c w x0 : Nat} {signed : Bool}
    {line : Nat → Int} {buf : List Nat} (hx : x0 < w) (hC : 0 < C)
    (hlt : lineStart + 2 * c + 2 * (x0 * C) + 1 < buf.length) :
    (storeLine16 C lineStart c w signed line buf)[lineStart + 2 * c + 2 * (x0 * C) + 1]?
      = some (u16bytes (if signed then clampS16 (line x0) else clampU16 (line x0))).2 := by
  refine foldl_get_hit
    (fun b x =>
      (b.set (lineStart + 2 * c + 2 * (x * C))
        (u16bytes (if signed then clampS16 (line x) else clampU16 (line x))).1).set
        (lineStart + 2 * c + 2 * (x * C) + 1)
        (u16bytes (if signed then clampS16 (line x) else clampU16 (line x))).2)
    (lineStart + 2 * c + 2 * (x0 * C) + 1) x0
    (u16bytes (if signed then clampS16 (line x0) else clampU16 (line x0))).2 buf.length
    (fun b x => by simp only [List.length_set])
    (fun b hb => List.getElem?_set_self (by simp only [List.length_set]; omega))
    (List.range w) buf rfl
    (List.mem_range.mpr hx) (List.nodup_range w) (fun b2 x hxm hne => ?_)
  have hxne : x * C ≠ x0 * C := fun he =>
    hne (Nat.eq_of_mul_eq_mul_right hC he)
  rw [List.getElem?_set_ne (by omega), List.getElem?_set_ne (by omega)]

/-! ### Lemmas about `decodeRow` and `decode_` -/

theorem decodeRow_length (fi : FrameInfo) (W : Nat) (pull : Nat → Nat → Nat → Int)
    (y : Nat) (buf : List Nat) :
    (decodeRow fi W pull y buf).length = buf.length := by
  refine foldl_length_inv _ (fun b c => ?_) _ _
  by_cases hb : fi.bitsPerSample ≤ 8
  · simp only [if_pos hb, storeLine8_length]
  · simp only [if_neg hb, storeLine16_length]

/-- Every write of `decodeRow` lands inside the byte block of scanline `y`:
indices below `y * W * C * bpp` or at or above `(y + 1) * W * C * bpp` are
untouched. -/
theorem decodeRow_get_preserve {fi : FrameInfo} {W : Nat}
    {pull : Nat → Nat → Nat → Int} {y i : Nat} {buf : List Nat}
    (hbpp : 0 < (fi.bitsPerSample + 8 - 1) / 8)
    (h : i < y * W * fi.componentCount * ((fi.bitsPerSample + 8 - 1) / 8)
      ∨ (y + 1) * W * fi.componentCount * ((fi.bitsPerSample + 8 - 1) / 8) ≤ i) :
    (decodeRow fi W pull y buf)[i]? = buf[i]? := by
  have hsplit : (y + 1) * W * fi.componentCount * ((fi.bitsPerSample + 8 - 1) / 8)
      = y * W * fi.componentCount * ((fi.bitsPerSample + 8 - 1) / 8)
        + W * fi.componentCount * ((fi.bitsPerSample + 8 - 1) / 8) := by
    ring
  have hWCbpp : W * fi.componentCount
      ≤ W * fi.componentCount * ((fi.bitsPerSample + 8 - 1) / 8) :=
    Nat.le_mul_of_pos_right _ hbpp
  unfold decodeRow
  refine foldl_get_preserve _ i _ _ (fun b2 c hc => ?_)
  have hcC : c < fi.componentCount := List.mem_range.mp hc
  by_cases hbits : fi.bitsPerSample ≤ 8
  · rw [if_pos hbits]
    refine storeLine8_get_preserve (fun x hx => ?_)
    have h1 : c + x * fi.componentCount < W * fi.componentCount :=
      interleave_lt hcC hx
    omega
  · rw [if_neg hbits]
    have hbpp2 : 2 ≤ (fi.bitsPerSample + 8 - 1) / 8 := by omega
    have hq : W * fi.componentCount * 2
        ≤ W * fi.componentCount * ((fi.bitsPerSample + 8 - 1) / 8) :=
      Nat.mul_le_mul le_rfl hbpp2
    refine storeLine16_get_preserve (fun x hx => ?_)
    have h1 : c + x * fi.componentCount < W * fi.componentCount :=
      interleave_lt hcC hx
    constructor <;> omega

theorem decodeRow_get_hit8 {fi : FrameInfo} {W : Nat} {pull : Nat → Nat → Nat → Int}
    {y c x : Nat} {buf : List Nat}
    (hbits : fi.bitsPerSample ≤ 8) (hc : c < fi.componentCount) (hx : x < W)
    (hlt : y * W * fi.componentCount * ((fi.bitsPerSample + 8 - 1) / 8) + c
      + x * fi.componentCount < buf.length) :
    (decodeRow fi W pull y buf)[y * W * fi.componentCount * ((fi.bitsPerSample + 8 - 1) / 8)
      + c + x * fi.componentCount]? = some (clampU8 (pull y c x)).toNat := by
  simp only [decodeRow, if_pos hbits]
  refine foldl_get_hit
    (fun b c2 => storeLine8 fi.componentCount
      (y * W * fi.componentCount * ((fi.bitsPerSample + 8 - 1) / 8)) c2 W (pull y c2) b)
    _ c _ buf.length
    (fun b c2 => storeLine8_length _ _ _ _ _ b)
    (fun b hb => storeLine8_get_hit hx (by omega) (by omega))
    (List.range fi.componentCount) buf rfl
    (List.mem_range.mpr hc) (List.nodup_range _) (fun b2 c2 hcm hne => ?_)
  refine storeLine8_get_preserve (fun x2 hx2 => fun he => hne ?_)
  have h2 : c2 + x2 * fi.componentCount = c + x * fi.componentCount := by omega
  exact (interleave_inj hc (List.mem_range.mp hcm) h2).1

theorem decodeRow_get_hit16_lo {fi : FrameInfo} {W : Nat} {pull : Nat → Nat → Nat → Int}
    {y c x : Nat} {buf : List Nat}
    (hbits : ¬ fi.bitsPerSample ≤ 8) (hc : c < fi.componentCount) (hx : x < W)
    (hlt : y * W * fi.componentCount * ((fi.bitsPerSample + 8 - 1) / 8) + 2 * c
      + 2 * (x * fi.componentCount) < buf.length) :
    (decodeRow fi W pull y buf)[y * W * fi.componentCount * ((fi.bitsPerSample + 8 - 1) / 8)
      + 2 * c + 2 * (x * fi.componentCount)]?
      = some (u16bytes (if fi.isSigned then clampS16 (pull y c x)
          else clampU16 (pull y c x))).1 := by
  simp only [decodeRow, if_neg hbits]
  refine foldl_get_hit
    (fun b c2 => storeLine16 fi.componentCount
      (y * W * fi.componentCount * ((fi.bitsPerSample + 8 - 1) / 8)) c2 W fi.isSigned
      (pull y c2) b)
    _ c _ buf.length
    (fun b c2 => storeLine16_length _ _ _ _ _ _ b)
    (fun b hb => storeLine16_get_hit_lo hx (by omega) (by omega))
    (List.range fi.componentCount) buf rfl
    (List.mem_range.mpr hc) (List.nodup_range _) (fun b2 c2 hcm hne => ?_)
  refine storeLine16_get_preserve (fun x2 hx2 => ?_)
  have hinj : ¬ (c2 + x2 * fi.componentCount = c + x * fi.componentCount) := fun he =>
    hne (interleave_inj hc (List.mem_range.mp hcm) he).1
  constructor <;> omega

theorem decodeRow_get_hit16_hi {fi : FrameInfo} {W : Nat} {pull : Nat → Nat → Nat → Int}
    {y c x : Nat} {buf : List Nat}
    (hbits : ¬ fi.bitsPerSample ≤ 8) (hc : c < fi.componentCount) (hx : x < W)
    (hlt : y * W * fi.componentCount * ((fi.bitsPerSample + 8 - 1) / 8) + 2 * c
      + 2 * (x * fi.componentCount) + 1 < buf.length) :
    (decodeRow fi W pull y buf)[y * W * fi.componentCount * ((fi.bitsPerSample + 8 - 1) / 8)
      + 2 * c + 2 * (x * fi.componentCount) + 1]?
      = some (u16bytes (if fi.isSigned then clampS16 (pull y c x)
          else clampU16 (pull y c x))).2 := by
  simp only [decodeRow, if_neg hbits]
  refine foldl_get_hit
    (fun b c2 => storeLine16 fi.componentCount
      (y * W * fi.componentCount * ((fi.bitsPerSample + 8 - 1) / 8)) c2 W fi.isSigned
      (pull y c2) b)
    _ c _ buf.length
    (fun b c2 => storeLine16_length _ _ _ _ _ _ b)
    (fun b hb => storeLine16_get_hit_hi hx (by omega) (by omega))
    (List.range fi.componentCount) buf rfl
    (List.mem_range.mpr hc) (List.nodup_range _) (fun b2 c2 hcm hne => ?_)
  refine storeLine16_get_preserve (fun x2 hx2 => ?_)
  have hinj : ¬ (c2 + x2 * fi.componentCount = c + x * fi.componentCount) := fun he =>
    hne (interleave_inj hc (List.mem_range.mp hcm) he).1
  constructor <;> omega

/-- Scanline block comparison used for cross-row disjointness. -/
theorem row_block_cases {y y2 W C bpp r : Nat} (hr : r < W * C * bpp) (hne : y2 ≠ y) :
    y * W * C * bpp + r < y2 * W * C * bpp
    ∨ (y2 + 1) * W * C * bpp ≤ y * W * C * bpp + r := by
  have e0 : ∀ a : Nat, a * (W * C * bpp) = a * W * C * bpp := fun a => by ring
  rcases Nat.lt_or_ge y y2 with hlt | hge
  · left
    have h2 : (y + 1) * (W * C * bpp) ≤ y2 * (W * C * bpp) :=
      Nat.mul_le_mul (by omega) le_rfl
    have e1 := e0 (y + 1)
    have e2 := e0 y2
    have e3 : (y + 1) * (W * C * bpp) = y * (W * C * bpp) + W * C * bpp := by ring
    have e4 := e0 y
    omega
  · right
    have hgt : y2 < y := Nat.lt_of_le_of_ne hge hne
    have h2 : (y2 + 1) * (W * C * bpp) ≤ y * (W * C * bpp) :=
      Nat.mul_le_mul (by omega) le_rfl
    have e1 := e0 (y2 + 1)
    have e2 := e0 y
    omega

/-- The destination offset of sample (y, c, x) is inside the allocated
buffer. -/
theorem offset_bound {y W H C bpp r : Nat} (hy : y < H) (hr : r < W * C * bpp) :
    y * W * C * bpp + r < W * H * C * bpp := by
  have h2 : (y + 1) * (W * C * bpp) ≤ H * (W * C * bpp) :=
    Nat.mul_le_mul (by omega) le_rfl
  have e1 : (y + 1) * (W * C * bpp) = y * W * C * bpp + W * C * bpp := by ring
  have e2 : H * (W * C * bpp) = W * H * C * bpp := by ring
  omega

theorem decode_length (fi : FrameInfo) (pull : Nat → Nat → Nat → Int) (L : Nat) :
    (HTJ2KDecoder.decode_ fi pull L).length
      = (calcSizeLoop ⟨fi.width, fi.height⟩ (L : Int)).width
        * (calcSizeLoop ⟨fi.width, fi.height⟩ (L : Int)).height
        * fi.componentCount * ((fi.bitsPerSample + 8 - 1) / 8) := by
  unfold HTJ2KDecoder.decode_
  rw [foldl_length_inv _ (fun b y => decodeRow_length fi _ pull y b),
    List.length_replicate]

theorem decode_get_hit8 {fi : FrameInfo} {pull : Nat → Nat → Nat → Int} {L y c x : Nat}
    (h1 : 1 ≤ fi.bitsPerSample) (hbits : fi.bitsPerSample ≤ 8)
    (hy : y < (calcSizeLoop ⟨fi.width, fi.height⟩ (L : Int)).height)
    (hc : c < fi.componentCount)
    (hx : x < (calcSizeLoop ⟨fi.width, fi.height⟩ (L : Int)).width) :
    (HTJ2KDecoder.decode_ fi pull L)[y * (calcSizeLoop ⟨fi.width, fi.height⟩ (L : Int)).width
        * fi.componentCount * ((fi.bitsPerSample + 8 - 1) / 8) + c
        + x * fi.componentCount]?
      = some (clampU8 (pull y c x)).toNat := by
  have hbpp : 1 ≤ (fi.bitsPerSample + 8 - 1) / 8 := by omega
  have hWC : c + x * fi.componentCount
      < (calcSizeLoop ⟨fi.width, fi.height⟩ (L : Int)).width * fi.componentCount :=
    interleave_lt hc hx
  have hWCbpp : (calcSizeLoop ⟨fi.width, fi.height⟩ (L : Int)).width * fi.componentCount
      ≤ (calcSizeLoop ⟨fi.width, fi.height⟩ (L : Int)).width * fi.componentCount
        * ((fi.bitsPerSample + 8 - 1) / 8) :=
    Nat.le_mul_of_pos_right _ hbpp
  have hr : c + x * fi.componentCount
      < (calcSizeLoop ⟨fi.width, fi.height⟩ (L : Int)).width * fi.componentCount
        * ((fi.bitsPerSample + 8 - 1) / 8) := by omega
  unfold HTJ2KDecoder.decode_
  refine foldl_get_hit
    (fun b y2 => decodeRow fi (calcSizeLoop ⟨fi.width, fi.height⟩ (L : Int)).width pull y2 b)
    _ y _
    ((calcSizeLoop ⟨fi.width, fi.height⟩ (L : Int)).width
      * (calcSizeLoop ⟨fi.width, fi.height⟩ (L : Int)).height
      * fi.componentCount * ((fi.bitsPerSample + 8 - 1) / 8))
    (fun b y2 => decodeRow_length _ _ _ _ b)
    (fun b hb => decodeRow_get_hit8 hbits hc hx (by
      have := offset_bound hy hr
      omega))
    (List.range (calcSizeLoop ⟨fi.width, fi.height⟩ (L : Int)).height)
    _ (List.length_replicate _ _)
    (List.mem_range.mpr hy) (List.nodup_range _) (fun b2 y2 hym hne => ?_)
  refine decodeRow_get_preserve (by omega) ?_
  rcases row_block_cases hr hne with hcl | hcr
  · left
    omega
  · right
    omega

theorem decode_get_hit16_lo {fi : FrameInfo} {pull : Nat → Nat → Nat → Int} {L y c x : Nat}
    (hbits : ¬ fi.bitsPerSample ≤ 8)
    (hy : y < (calcSizeLoop ⟨fi.width, fi.height⟩ (L : Int)).height)
    (hc : c < fi.componentCount)
    (hx : x < (calcSizeLoop ⟨fi.width, fi.height⟩ (L : Int)).width) :
    (HTJ2KDecoder.decode_ fi pull L)[y * (calcSizeLoop ⟨fi.width, fi.height⟩ (L : Int)).width
        * fi.componentCount * ((fi.bitsPerSample + 8 - 1) / 8) + 2 * c
        + 2 * (x * fi.componentCount)]?
      = some (u16bytes (if fi.isSigned then clampS16 (pull y c x)
          else clampU16 (pull y c x))).1 := by
  have hbpp : 2 ≤ (fi.bitsPerSample + 8 - 1) / 8 := by omega
  have hWC : c + x * fi.componentCount
      < (calcSizeLoop ⟨fi.width, fi.height⟩ (L : Int)).width * fi.componentCount :=
    interleave_lt hc hx
  have hWCbpp : (calcSizeLoop ⟨fi.width, fi.height⟩ (L : Int)).width * fi.componentCount * 2
      ≤ (calcSizeLoop ⟨fi.width, fi.height⟩ (L : Int)).width * fi.componentCount
        * ((fi.bitsPerSample + 8 - 1) / 8) :=
    Nat.mul_le_mul le_rfl hbpp
  have hr : 2 * c + 2 * (x * fi.componentCount)
      < (calcSizeLoop ⟨fi.width, fi.height⟩ (L : Int)).width * fi.componentCount
        * ((fi.bitsPerSample + 8 - 1) / 8) := by omega
  unfold HTJ2KDecoder.decode_
  refine foldl_get_hit
    (fun b y2 => decodeRow fi (calcSizeLoop ⟨fi.width, fi.height⟩ (L : Int)).width pull y2 b)
    _ y _
    ((calcSizeLoop ⟨fi.width, fi.height⟩ (L : Int)).width
      * (calcSizeLoop ⟨fi.width, fi.height⟩ (L : Int)).height
      * fi.componentCount * ((fi.bitsPerSample + 8 - 1) / 8))
    (fun b y2 => decodeRow_length _ _ _ _ b)
    (fun b hb => decodeRow_get_hit16_lo hbits hc hx (by
      have := offset_bound hy hr
      omega))
    (List.range (calcSizeLoop ⟨fi.width, fi.height⟩ (L : Int)).height)
    _ (List.length_replicate _ _)
    (List.mem_range.mpr hy) (List.nodup_range _) (fun b2 y2 hym hne => ?_)
  refine decodeRow_get_preserve (by omega) ?_
  rcases row_block_cases hr hne with hcl | hcr
  · left
    omega
  · right
    omega

theorem decode_get_hit16_hi {fi : FrameInfo} {pull : Nat → Nat → Nat → Int} {L y c x : Nat}
    (hbits : ¬ fi.bitsPerSample ≤ 8)
    (hy : y < (calcSizeLoop ⟨fi.width, fi.height⟩ (L : Int)).height)
    (hc : c < fi.componentCount)
    (hx : x < (calcSizeLoop ⟨fi.width, fi.height⟩ (L : Int)).width) :
    (HTJ2KDecoder.decode_ fi pull L)[y * (calcSizeLoop ⟨fi.width, fi.height⟩ (L : Int)).width
        * fi.componentCount * ((fi.bitsPerSample + 8 - 1) / 8) + 2 * c
        + 2 * (x * fi.componentCount) + 1]?
      = some (u16bytes (if fi.isSigned then clampS16 (pull y c x)
          else clampU16 (pull y c x))).2 := by
  have hbpp : 2 ≤ (fi.bitsPerSample + 8 - 1) / 8 := by omega
  have hWC : c + x * fi.componentCount
      < (calcSizeLoop ⟨fi.width, fi.height⟩ (L : Int)).width * fi.componentCount :=
    interleave_lt hc hx
  have hWCbpp : (calcSizeLoop ⟨fi.width, fi.height⟩ (L : Int)).width * fi.componentCount * 2
      ≤ (calcSizeLoop ⟨fi.width, fi.height⟩ (L : Int)).width * fi.componentCount
        * ((fi.bitsPerSample + 8 - 1) / 8) :=
    Nat.mul_le_mul le_rfl hbpp
  have hr : 2 * c + 2 * (x * fi.componentCount) + 1
      < (calcSizeLoop ⟨fi.width, fi.height⟩ (L : Int)).width * fi.componentCount
        * ((fi.bitsPerSample + 8 - 1) / 8) := by omega
  unfold HTJ2KDecoder.decode_
  refine foldl_get_hit
    (fun b y2 => decodeRow fi (calcSizeLoop ⟨fi.width, fi.height⟩ (L : Int)).width pull y2 b)
    _ y _
    ((calcSizeLoop ⟨fi.width, fi.height⟩ (L : Int)).width
      * (calcSizeLoop ⟨fi.width, fi.height⟩ (L : Int)).height
      * fi.componentCount * ((fi.bitsPerSample + 8 - 1) / 8))
    (fun b y2 => decodeRow_length _ _ _ _ b)
    (fun b hb => decodeRow_get_hit16_hi hbits hc hx (by
      have := offset_bound hy hr
      omega))
    (List.range (calcSizeLoop ⟨fi.width, fi.height⟩ (L : Int)).height)
    _ (List.length_replicate _ _)
    (List.mem_range.mpr hy) (List.nodup_range _) (fun b2 y2 hym hne => ?_)
  refine decodeRow_get_preserve (by omega) ?_
  rcases row_block_cases hr hne with hcl | hcr
  · left
    omega
  · right
    omega

/-! ### Sample recovery and clamp bounds -/

theorem clampU8_bounds (v : Int) : 0 ≤ clampU8 v ∧ clampU8 v ≤ 255 :=
  ⟨le_max_left _ _, max_le (by norm_num) (min_le_right _ _)⟩

theorem clampS16_bounds (v : Int) : -32768 ≤ clampS16 v ∧ clampS16 v ≤ 32767 :=
  ⟨le_max_left _ _, max_le (by norm_num) (min_le_right _ _)⟩

theorem clampU16_bounds (v : Int) : 0 ≤ clampU16 v ∧ clampU16 v ≤ 65535 :=
  ⟨le_max_left _ _, max_le (by norm_num) (min_le_right _ _)⟩

theorem u16bytes_recover_unsigned (v : Int) (h0 : 0 ≤ v) (h1 : v ≤ 65535) :
    ((u16bytes v).1 : Int) + 256 * ((u16bytes v).2 : Int) = v := by
  simp only [u16bytes]
  omega

theorem u16bytes_recover_signed (v : Int) (h0 : -32768 ≤ v) (h1 : v ≤ 32767) :
    (if (32768 : Int) ≤ ((u16bytes v).1 : Int) + 256 * ((u16bytes v).2 : Int)
      then ((u16bytes v).1 : Int) + 256 * ((u16bytes v).2 : Int) - 65536
      else ((u16bytes v).1 : Int) + 256 * ((u16bytes v).2 : Int)) = v := by
  have key : ((u16bytes v).1 : Int) + 256 * ((u16bytes v).2 : Int) = v % 65536 := by
    simp only [u16bytes]
    omega
  rw [key]
  have h2 : v % 65536 = v ∨ v % 65536 = v + 65536 := by omega
  rcases h2 with h | h <;> rw [h] <;> split <;> omega

/-! ### Claim theorems -/

/-- Claim C1 (code bug): the lossless round trip is NOT byte-for-byte the
identity for every supported combination.  At bitsPerSample = 16,
componentCount = 2 (1x1 image, source bytes [5,0,7,0], i.e. samples 5 and
7), `HTJ2KEncoder::encode` reads both component lines from byte offset
`y * width * bytesPerPixel` — omitting the component index and stride — so
even with a perfectly reversible engine the decoded buffer is [5,0,5,0]. -/
theorem roundTrip_fails_16bit_two_components :
    roundTrip fi16x2 [5, 0, 7, 0] = [5, 0, 5, 0]
    ∧ roundTrip fi16x2 [5, 0, 7, 0] ≠ [5, 0, 7, 0] := by decide

/-- Claim C2 (code bug): the int32 sample the encoder hands to the engine
does not come from the byte offset
`y * width * componentCount * bytesPerPixel + (x * componentCount + c) *
bytesPerPixel` with `bytesPerPixel = ceil(bitsPerSample / 8)`.  At
bitsPerSample = 16, componentCount = 2, (y,c,x) = (0,1,0) the code reads
sample 5 from offset 0 while the spec's arithmetic reads sample 7 from
offset 2; at bitsPerSample = 4 (where the code's `bitsPerSample / 8` is 0,
not ceil = 1), scanline y = 1 of a 2x2 image re-reads scanline 0. -/
theorem encode_sample_offset_diverges_from_spec :
    HTJ2KEncoder.sampleAt fi16x2 [5, 0, 7, 0] 0 1 0 = 5
    ∧ specSampleAt fi16x2 [5, 0, 7, 0] 0 1 0 = 7
    ∧ HTJ2KEncoder.sampleAt fi16x2 [5, 0, 7, 0] 0 1 0
      ≠ specSampleAt fi16x2 [5, 0, 7, 0] 0 1 0
    ∧ HTJ2KEncoder.sampleAt fi4x1 [1, 2, 3, 4] 1 0 0 = 1
    ∧ specSampleAt fi4x1 [1, 2, 3, 4] 1 0 0 = 3
    ∧ HTJ2KEncoder.sampleAt fi4x1 [1, 2, 3, 4] 1 0 0
      ≠ specSampleAt fi4x1 [1, 2, 3, 4] 1 0 0 := by decide

/-- Claim C3 counterexample: requesting decode at level 6 when the header
declares numDecompositions = 5 does NOT fail: `decodeSubResolution` has no
level check, the engine is driven (the produced byte comes from the
engine-supplied sample 128), and a non-empty output buffer is produced. -/
theorem decodeSubResolution_no_level_check :
    hdr44.numDecompositions = 5
    ∧ (HTJ2KDecoder.init.decodeSubResolution hdr44 pull128 6).decoded_ = [128]
    ∧ (HTJ2KDecoder.init.decodeSubResolution hdr44 pull128 6).decoded_ ≠ [] := by
  decide

/-- Claim C3 (amended): `decodeSubResolution` performs no validation of the
requested level against the header's decomposition count: for every state,
header, engine and level — including levels above numDecompositions — it
runs to completion and produces an output buffer of exactly the size
computed from `calcSizeLoop`, and the produced buffer does not depend on
the header's numDecompositions field at all. -/
theorem decodeSubResolution_unvalidated (st : HTJ2KDecoder) (hdr : HeaderInfo)
    (pull : Nat → Nat → Nat → Int) (L n : Nat) :
    (st.decodeSubResolution hdr pull L).decoded_.length
      = (calcSizeLoop ⟨hdr.width, hdr.height⟩ (L : Int)).width
        * (calcSizeLoop ⟨hdr.width, hdr.height⟩ (L : Int)).height
        * hdr.componentCount * ((hdr.bitsPerSample + 8 - 1) / 8)
    ∧ (st.decodeSubResolution { hdr with numDecompositions := n } pull L).decoded_
      = (st.decodeSubResolution hdr pull L).decoded_ := by
  constructor
  · exact decode_length
      ⟨hdr.width, hdr.height, hdr.bitsPerSample, hdr.componentCount,
        hdr.isSigned, hdr.isUsingColorTransform⟩ pull L
  · rfl

/-- Claim C4: `calculateSizeAtDecompositionLevel` returns the pair obtained
by applying ceiling halving to width and height exactly L times, leaves the
decoder state unchanged (it is pure), returns the full-resolution size at
L = 0, and gives (256,256) at L = 1 and (16,16) at L = 5 for a 512x512
image. -/
theorem calculateSize_iterates_ceil_halving (st : HTJ2KDecoder) (L : Nat) :
    (st.calculateSizeAtDecompositionLevel (L : Int)).1
      = specLevelSize st.frameInfo_.width st.frameInfo_.height L
    ∧ (st.calculateSizeAtDecompositionLevel (L : Int)).2 = st
    ∧ (st.calculateSizeAtDecompositionLevel 0).1
      = ⟨st.frameInfo_.width, st.frameInfo_.height⟩
    ∧ (decoder512.calculateSizeAtDecompositionLevel 1).1 = ⟨256, 256⟩
    ∧ (decoder512.calculateSizeAtDecompositionLevel 5).1 = ⟨16, 16⟩ := by
  refine ⟨?_, rfl, ?_, by decide, by decide⟩
  · exact calcSizeLoop_natCast _ _ L
  · exact calcSizeLoop_nonpos _ le_rfl

/-- Claim C5: the output buffer of every decode at level L has length
`calculateSizeAtDecompositionLevel(L).width * height * componentCount *
bytesPerPixel`, and for bitsPerSample in [2,16] the bytesPerPixel factor is
1 or 2. -/
theorem decode_output_length_eq (st : HTJ2KDecoder) (hdr : HeaderInfo)
    (pull : Nat → Nat → Nat → Int) (L : Nat)
    (h2 : 2 ≤ hdr.bitsPerSample) (h16 : hdr.bitsPerSample ≤ 16) :
    (st.decodeSubResolution hdr pull L).decoded_.length
      = ((st.decodeSubResolution hdr pull L).calculateSizeAtDecompositionLevel
          (L : Int)).1.width
        * ((st.decodeSubResolution hdr pull L).calculateSizeAtDecompositionLevel
          (L : Int)).1.height
        * hdr.componentCount * ((hdr.bitsPerSample + 8 - 1) / 8)
    ∧ ((hdr.bitsPerSample + 8 - 1) / 8 = 1 ∨ (hdr.bitsPerSample + 8 - 1) / 8 = 2) := by
  constructor
  · exact decode_length
      ⟨hdr.width, hdr.height, hdr.bitsPerSample, hdr.componentCount,
        hdr.isSigned, hdr.isUsingColorTransform⟩ pull L
  · omega

/-- Witness for C5: on the 4x4 single-component 8-bit header, a decode at
level 1 produces exactly 2 * 2 * 1 * 1 = 4 bytes. -/
theorem decode_output_length_eq_witness :
    (HTJ2KDecoder.init.decodeSubResolution hdr44 pull0 1).decoded_.length = 4 := by
  have h := (decode_output_length_eq HTJ2KDecoder.init hdr44 pull0 1
    (by decide) (by decide)).1
  rw [h]
  decide

/-- Claim C6 counterexample: `OpenJPHDecoder::decode` (the second decode
path cited by the claim) does not clamp: the engine value 256 is stored by
modular truncation as byte 0, not as the clamped 255. -/
theorem openjph_decode_store_unclamped :
    OpenJPHDecoder.storeLine8 1 0 0 1 (fun _ => 256) [7] = [0]
    ∧ clampU8 256 = 255
    ∧ (OpenJPHDecoder.storeSample8 256 : Int) ≠ clampU8 256 := by decide

/-- Claim C6 (amended): in `HTJ2KDecoder::decode_` every sample written to
the packed output buffer equals the clamp of the engine-supplied int32
value and therefore lies in the nominal range of its stored format — in
[0,255] for bytesPerPixel = 1, in [-32768,32767] for bytesPerPixel = 2
signed, in [0,65535] for bytesPerPixel = 2 unsigned — for every
engine-supplied value, including values outside these ranges.  (For
bitsPerSample in [2,16], bytesPerPixel = 1 corresponds to the source's
`bitsPerSample <= 8` branch and bytesPerPixel = 2 to its 16-bit branches.)
`OpenJPHDecoder::decode` stores by modular truncation instead, see the
counterexample. -/
theorem htj2k_decode_samples_clamped (fi : FrameInfo) (pull : Nat → Nat → Nat → Int)
    (L y c x : Nat)
    (h2 : 2 ≤ fi.bitsPerSample) (h16 : fi.bitsPerSample ≤ 16)
    (hy : y < (calcSizeLoop ⟨fi.width, fi.height⟩ (L : Int)).height)
    (hc : c < fi.componentCount)
    (hx : x < (calcSizeLoop ⟨fi.width, fi.height⟩ (L : Int)).width) :
    ((fi.bitsPerSample + 8 - 1) / 8 = 1 →
      decodedSampleAt fi (HTJ2KDecoder.decode_ fi pull L)
          (calcSizeLoop ⟨fi.width, fi.height⟩ (L : Int)).width y c x
        = clampU8 (pull y c x)
      ∧ 0 ≤ decodedSampleAt fi (HTJ2KDecoder.decode_ fi pull L)
          (calcSizeLoop ⟨fi.width, fi.height⟩ (L : Int)).width y c x
      ∧ decodedSampleAt fi (HTJ2KDecoder.decode_ fi pull L)
          (calcSizeLoop ⟨fi.width, fi.height⟩ (L : Int)).width y c x ≤ 255)
    ∧ ((fi.bitsPerSample + 8 - 1) / 8 = 2 → fi.isSigned = true →
      decodedSampleAt fi (HTJ2KDecoder.decode_ fi pull L)
          (calcSizeLoop ⟨fi.width, fi.height⟩ (L : Int)).width y c x
        = clampS16 (pull y c x)
      ∧ -32768 ≤ decodedSampleAt fi (HTJ2KDecoder.decode_ fi pull L)
          (calcSizeLoop ⟨fi.width, fi.height⟩ (L : Int)).width y c x
      ∧ decodedSampleAt fi (HTJ2KDecoder.decode_ fi pull L)
          (calcSizeLoop ⟨fi.width, fi.height⟩ (L : Int)).width y c x ≤ 32767)
    ∧ ((fi.bitsPerSample + 8 - 1) / 8 = 2 → fi.isSigned = false →
      decodedSampleAt fi (HTJ2KDecoder.decode_ fi pull L)
          (calcSizeLoop ⟨fi.width, fi.height⟩ (L : Int)).width y c x
        = clampU16 (pull y c x)
      ∧ 0 ≤ decodedSampleAt fi (HTJ2KDecoder.decode_ fi pull L)
          (calcSizeLoop ⟨fi.width, fi.height⟩ (L : Int)).width y c x
      ∧ decodedSampleAt fi (HTJ2KDecoder.decode_ fi pull L)
          (calcSizeLoop ⟨fi.width, fi.height⟩ (L : Int)).width y c x ≤ 65535) := by
  refine ⟨fun hbpp1 => ?_, fun hbpp2 hsig => ?_, fun hbpp2 hsig => ?_⟩
  · have hbits : fi.bitsPerSample ≤ 8 := by omega
    have hit := @decode_get_hit8 fi pull L y c x (by omega) hbits hy hc hx
    have hval : decodedSampleAt fi (HTJ2KDecoder.decode_ fi pull L)
        (calcSizeLoop ⟨fi.width, fi.height⟩ (L : Int)).width y c x
        = clampU8 (pull y c x) := by
      simp only [decodedSampleAt, if_pos hbits, byteAt,
        List.getD_eq_getElem?_getD, hit, Option.getD_some]
      exact Int.toNat_of_nonneg (clampU8_bounds _).1
    refine ⟨hval, ?_, ?_⟩
    · rw [hval]
      exact (clampU8_bounds _).1
    · rw [hval]
      exact (clampU8_bounds _).2
  · have hbits : ¬ fi.bitsPerSample ≤ 8 := by omega
    have hitlo := @decode_get_hit16_lo fi pull L y c x hbits hy hc hx
    have hithi := @decode_get_hit16_hi fi pull L y c x hbits hy hc hx
    simp only [hsig, if_true] at hitlo hithi
    have hval : decodedSampleAt fi (HTJ2KDecoder.decode_ fi pull L)
        (calcSizeLoop ⟨fi.width, fi.height⟩ (L : Int)).width y c x
        = clampS16 (pull y c x) := by
      simp only [decodedSampleAt, if_neg hbits, hsig, if_true, readS16, byteAt,
        List.getD_eq_getElem?_getD, hitlo, hithi, Option.getD_some]
      exact u16bytes_recover_signed _ (clampS16_bounds _).1 (clampS16_bounds _).2
    refine ⟨hval, ?_, ?_⟩
    · rw [hval]
      exact (clampS16_bounds _).1
    · rw [hval]
      exact (clampS16_bounds _).2
  · have hbits : ¬ fi.bitsPerSample ≤ 8 := by omega
    have hitlo := @decode_get_hit16_lo fi pull L y c x hbits hy hc hx
    have hithi := @decode_get_hit16_hi fi pull L y c x hbits hy hc hx
    simp only [hsig, Bool.false_eq_true, if_false] at hitlo hithi
    have hval : decodedSampleAt fi (HTJ2KDecoder.decode_ fi pull L)
        (calcSizeLoop ⟨fi.width, fi.height⟩ (L : Int)).width y c x
        = clampU16 (pull y c x) := by
      simp only [decodedSampleAt, if_neg hbits, hsig, Bool.false_eq_true, if_false,
        readU16, byteAt, List.getD_eq_getElem?_getD, hitlo, hithi, Option.getD_some]
      exact u16bytes_recover_unsigned _ (clampU16_bounds _).1 (clampU16_bounds _).2
    refine ⟨hval, ?_, ?_⟩
    · rw [hval]
      exact (clampU16_bounds _).1
    · rw [hval]
      exact (clampU16_bounds _).2

/-- Witness for C6: on the 2x1 8-bit frame with engine samples -10 and 290,
the sample read back at x = 1 equals the clamp of 290 (i.e. 255) and is in
[0, 255]. -/
theorem htj2k_decode_samples_clamped_witness :
    decodedSampleAt fiClamp (HTJ2KDecoder.decode_ fiClamp pullClamp 0)
        (calcSizeLoop ⟨fiClamp.width, fiClamp.height⟩ (0 : Int)).width 0 0 1
      = clampU8 (pullClamp 0 0 1)
    ∧ 0 ≤ decodedSampleAt fiClamp (HTJ2KDecoder.decode_ fiClamp pullClamp 0)
        (calcSizeLoop ⟨fiClamp.width, fiClamp.height⟩ (0 : Int)).width 0 0 1
    ∧ decodedSampleAt fiClamp (HTJ2KDecoder.decode_ fiClamp pullClamp 0)
        (calcSizeLoop ⟨fiClamp.width, fiClamp.height⟩ (0 : Int)).width 0 0 1 ≤ 255 :=
  (htj2k_decode_samples_clamped fiClamp pullClamp 0 0 0 1 (by decide) (by decide)
    (by decide) (by decide) (by decide)).1 (by decide)

/-- Claim C7: `setDecompositions` sets the decomposition count and leaves
the precinct list empty, whatever was configured before. -/
theorem setDecompositions_sets_and_clears (st : HTJ2KEncoder) (d : Nat) :
    (st.setDecompositions d).decompositions_ = d
    ∧ (st.setDecompositions d).precincts_ = [] :=
  ⟨rfl, rfl⟩

/-- Claim C8 counterexample: configuring a precinct list of length 3 with
decompositions = 5 does NOT fail: `setNumPrecincts` resizes uncheckedly and
`encode` runs, passing the mismatched count 3 and decomposition count 5 to
the engine. -/
theorem setNumPrecincts_mismatch_accepted :
    ((HTJ2KEncoder.init.setDecompositions 5).setNumPrecincts 3).precincts_.length = 3
    ∧ ((HTJ2KEncoder.init.setDecompositions 5).setNumPrecincts 3).decompositions_ = 5
    ∧ (((HTJ2KEncoder.init.setDecompositions 5).setNumPrecincts 3).encode).1.precinct_count
      = 3
    ∧ (((HTJ2KEncoder.init.setDecompositions 5).setNumPrecincts 3).encode).1.num_decomposition
      = 5
    ∧ (3 : Nat) ≠ 5 := by decide

/-- Claim C8 (amended): `setNumPrecincts` accepts any length (no
`InvalidPrecinctConfiguration` error exists): it resizes the precinct list
to exactly the requested length, leaves the decomposition count unchanged,
and `encode` passes whatever precinct list is configured — with its length
— to the engine unchecked. -/
theorem setNumPrecincts_unchecked_passthrough (st : HTJ2KEncoder) (n : Nat) :
    (st.setNumPrecincts n).precincts_.length = n
    ∧ (st.setNumPrecincts n).decompositions_ = st.decompositions_
    ∧ (st.encode).1.precinct_count = st.precincts_.length
    ∧ (st.encode).1.precinct_sizes = st.precincts_
    ∧ (st.encode).1.num_decomposition = st.decompositions_ := by
  refine ⟨?_, rfl, rfl, rfl, rfl⟩
  simp only [HTJ2KEncoder.setNumPrecincts, vectorResize, List.length_append,
    List.length_take, List.length_replicate]
  omega

/-- Claim C9 counterexample: `encode` with a source buffer one byte shorter
than width * height * componentCount * bytesPerPixel does NOT fail with any
buffer-size error: it runs to completion, reading past the supplied data
(the final engine sample is the out-of-bounds default 0) and handing the
full line sequence to the engine. -/
theorem encode_short_buffer_runs :
    encShort.decoded_.length = 3
    ∧ encShort.frameInfo_.width * encShort.frameInfo_.height
        * encShort.frameInfo_.componentCount
        * ((encShort.frameInfo_.bitsPerSample + 8 - 1) / 8) = 4
    ∧ (encShort.encode).2 = [[[1, 2]], [[3, 0]]] := by decide

/-- Claim C9 (amended): `encode` performs no check of the source buffer
length: for every encoder state, whatever the length of `decoded_`, it
unconditionally builds the engine configuration and produces the full
height x componentCount x width line structure (reading out of bounds where
the buffer is short). -/
theorem encode_no_size_check (st : HTJ2KEncoder) :
    (st.encode).1 = st.encodeConfig
    ∧ (st.encode).2.length = st.frameInfo_.height
    ∧ (∀ l1 ∈ (st.encode).2, l1.length = st.frameInfo_.componentCount
        ∧ ∀ l2 ∈ l1, l2.length = st.frameInfo_.width) := by
  refine ⟨rfl, ?_, ?_⟩
  · simp [HTJ2KEncoder.encode, HTJ2KEncoder.encodeLines]
  · intro l1 h1
    simp only [HTJ2KEncoder.encode, HTJ2KEncoder.encodeLines, List.mem_map] at h1
    obtain ⟨y, hy, rfl⟩ := h1
    refine ⟨by simp, ?_⟩
    intro l2 h2
    simp only [List.mem_map] at h2
    obtain ⟨c, hc, rfl⟩ := h2
    simp

/-- Witness for C9: the first line list produced by the short-buffer encode
is a member of the output and has componentCount = 1 entries. -/
theorem encode_no_size_check_witness :
    [[(1 : Int), 2]] ∈ (encShort.encode).2
    ∧ [[(1 : Int), 2]].length = encShort.frameInfo_.componentCount :=
  ⟨by decide, ((encode_no_size_check encShort).2.2 [[(1 : Int), 2]] (by decide)).1⟩

/-- Claim C10: `calculateSizeAtDecompositionLevel` is total over its signed
integer argument: every level at most 0 (including negative levels) returns
the FrameInfo dimensions unchanged, every level yields the iterated
ceiling-halving of the dimensions, and the result never depends on the
header's decomposition count (no validation is performed). -/
theorem calculateSize_total_int (st : HTJ2KDecoder) (n : Nat) (L : Int) :
    (L ≤ 0 → (st.calculateSizeAtDecompositionLevel L).1
      = ⟨st.frameInfo_.width, st.frameInfo_.height⟩)
    ∧ ({ st with numDecompositions_ := n }.calculateSizeAtDecompositionLevel L).1
      = (st.calculateSizeAtDecompositionLevel L).1
    ∧ (st.calculateSizeAtDecompositionLevel L).1
      = specLevelSize st.frameInfo_.width st.frameInfo_.height L.toNat := by
  refine ⟨fun hL => calcSizeLoop_nonpos _ hL, rfl, ?_⟩
  rw [HTJ2KDecoder.calculateSizeAtDecompositionLevel, calcSizeLoop, calcSizeGo_eq]

/-- Witness for C10: at the concrete negative level -3 the 512x512 decoder
returns its dimensions unchanged. -/
theorem calculateSize_total_int_witness :
    (decoder512.calculateSizeAtDecompositionLevel (-3)).1 = ⟨512, 512⟩ :=
  (calculateSize_total_int decoder512 7 (-3)).1 (by decide)

end Openjphjs
